import Mathlib

/-!
Shallow embedding of the GMS-5 VISSR navigation core
(`satpy/readers/gms5_vissr_navigation.py`) and proofs of its specified
properties.

Modelling conventions:
* Floating-point scalars are modelled as real numbers (or as elements of an
  arbitrary linear ordered field where the source code is purely ordered-field
  arithmetic, so that concrete evaluations can be carried out over `ℚ`).
* The source signals interpolation failure by raising an exception that the
  direct caller converts to the floating-point not-a-number sentinel; the
  embedding models this fallible computation with `Option`, `none` standing
  for the not-a-number sentinel.
* NumPy's `np.sqrt` of a negative number produces not-a-number, which then
  propagates through all subsequent arithmetic; a separate `…_nanAware`
  layer models that propagation with `Option`, `none` again standing for
  the not-a-number sentinel.
-/

namespace Gms5VissrNav

/-- A 3-vector of reals, modelling the `np.array([x, y, z])` vectors used for
view vectors, satellite positions and points on the earth. -/
structure Vec3 where
  x : ℝ
  y : ℝ
  z : ℝ

/-- Componentwise vector addition (numpy `+` on shape-(3,) arrays). -/
def Vec3.add (a b : Vec3) : Vec3 :=
  ⟨a.x + b.x, a.y + b.y, a.z + b.z⟩

/-- Scalar multiplication (numpy `scalar * array` on shape-(3,) arrays). -/
def Vec3.smul (t : ℝ) (a : Vec3) : Vec3 :=
  ⟨t * a.x, t * a.y, t * a.z⟩

/-- `ScanningParameters` namedtuple: instrument timing parameters. -/
structure ScanningParameters where
  start_time_of_scan : ℝ
  spinning_rate : ℝ
  num_sensors : ℝ
  sampling_angle : ℝ

/-! Section: Observation time (`get_observation_time`) -/

/-- Embeds `_get_relative_observation_time`: relative observation time of a
VISSR pixel.  `np.floor` applied to a quotient is modelled by the integer
floor coerced back to `ℝ`. -/
noncomputable def _get_relative_observation_time (point : ℝ × ℝ)
    (scan_params : ScanningParameters) : ℝ :=
  let line := point.1 + 1
  let pixel := point.2 + 1
  let spinning_freq := 1440 * scan_params.spinning_rate
  let line_step := (⌊(line - 1) / scan_params.num_sensors⌋ : ℝ)
  let pixel_step := scan_params.sampling_angle * pixel / (2 * Real.pi)
  (line_step + pixel_step) / spinning_freq

/-- Embeds `get_observation_time`: observation time of a VISSR pixel. -/
noncomputable def get_observation_time (point : ℝ × ℝ)
    (scan_params : ScanningParameters) : ℝ :=
  scan_params.start_time_of_scan + _get_relative_observation_time point scan_params

/-! Section: Interpolators

The enclosing-index search and the linear/nearest interpolators only use
ordered-field arithmetic, so they are embedded generically over a
`LinearOrderedField` (the value samples of the nearest-neighbour interpolator
may have any type `β`, matching the matrix-valued use in the source). -/

/-- Embeds `_find_enclosing_index`: scan consecutive sample pairs in order and
return the first index `i` with `x_sample[i] ≤ x < x_sample[i+1]`.  The raised
`Exception` of the source is modelled by `none`. -/
def _find_enclosing_index {α : Type} [LinearOrder α] (x : α) :
    List α → Option ℕ
  | [] => none
  | a :: rest =>
    match rest with
    | [] => none
    | b :: _ =>
      if a ≤ x ∧ x < b then some 0
      else Option.map Nat.succ (_find_enclosing_index x rest)

/-- Embeds `_interpolate`: look up the enclosing index and interpolate
linearly.  The element lookups use `List.getElem?`; this is faithful only for
in-bounds indices (in particular whenever the value samples are at least as
long as the time samples, which every theorem below assumes).  For an
out-of-bounds value-sample index the compiled program performs an unchecked
read with an unspecified result, so the `none` produced here in that corner is
a domain restriction of the model, not a description of the program. -/
def _interpolate {α : Type} [LinearOrderedField α] (x : α)
    (x_sample y_sample : List α) : Option α :=
  (_find_enclosing_index x x_sample).bind fun i =>
  (y_sample[i]?).bind fun offset =>
  (x_sample[i]?).bind fun xs_i =>
  (x_sample[i + 1]?).bind fun xs_i1 =>
  (y_sample[i + 1]?).bind fun ys_i1 =>
  let x_diff := xs_i1 - xs_i
  let y_diff := ys_i1 - offset
  let slope := y_diff / x_diff
  let dist := x - xs_i
  some (offset + slope * dist)

/-- Embeds `interpolate_continuous`: the `try/except` wrapper that converts
any internal failure of `_interpolate` to the not-a-number sentinel (`none`
here). -/
def interpolate_continuous {α : Type} [LinearOrderedField α] (x : α)
    (x_sample y_sample : List α) : Option α :=
  _interpolate x x_sample y_sample

/-- Embeds `_interpolate_nearest`: enclosing-index search followed by a
left-endpoint lookup.  As for `_interpolate`, the `List.getElem?` lookup is
faithful only in bounds; the out-of-bounds corner is an unchecked read in the
compiled program and is outside this model's domain. -/
def _interpolate_nearest {α : Type} [LinearOrder α] {β : Type} (x : α)
    (x_sample : List α) (y_sample : List β) : Option β :=
  (_find_enclosing_index x x_sample).bind fun i => y_sample[i]?

/-- Embeds `interpolate_nearest`: the `try/except` wrapper; on failure the
source returns `np.nan * np.ones_like(y_sample[0])`, a sample-shaped array of
the not-a-number sentinel, modelled by `none`. -/
def interpolate_nearest {α : Type} [LinearOrder α] {β : Type} (x : α)
    (x_sample : List α) (y_sample : List β) : Option β :=
  _interpolate_nearest x x_sample y_sample

/-- Real-number model of numpy's float `%` operator: for a positive modulus
`m`, `a % m = a - m * ⌊a / m⌋`, the always-nonnegative (Euclidean)
remainder. -/
noncomputable def fmod (a m : ℝ) : ℝ :=
  a - m * ⌊a / m⌋

/-- Embeds `_wrap_2pi`: wrap values to the interval `[-pi, pi]` via
`(values + np.pi) % (2 * np.pi) - np.pi`. -/
noncomputable def _wrap_2pi (values : ℝ) : ℝ :=
  fmod (values + Real.pi) (2 * Real.pi) - Real.pi

/-- Embeds `interpolate_angles`: `_wrap_2pi(interpolate_continuous(...))`.
The not-a-number sentinel passes through `_wrap_2pi` unchanged in the source
(`nan % m - pi = nan`), which `Option.map` models. -/
noncomputable def interpolate_angles (x : ℝ) (x_sample y_sample : List ℝ) :
    Option ℝ :=
  Option.map _wrap_2pi (interpolate_continuous x x_sample y_sample)

/-! Section: Ellipsoid intersection -/

/-- The coefficients `(a, b, c)` of the intersection quadratic
`a·t² + 2b·t + c = 0` exactly as computed inside
`_get_distances_to_intersections` (with `flat2 = (1 - flattening)²`).
The `ellipsoid` pair is `(equatorial_radius, flattening)`, the order
produced by `_get_ellipsoid`. -/
def _intersection_quadratic (view_vector sat_pos : Vec3) (ellipsoid : ℝ × ℝ) :
    ℝ × ℝ × ℝ :=
  let equatorial_radius := ellipsoid.1
  let flattening := ellipsoid.2
  let flat2 := (1 - flattening) ^ 2
  let a := flat2 * (view_vector.x ^ 2 + view_vector.y ^ 2) + view_vector.z ^ 2
  let b := flat2 * (sat_pos.x * view_vector.x + sat_pos.y * view_vector.y) +
    sat_pos.z * view_vector.z
  let c := flat2 * (sat_pos.x ^ 2 + sat_pos.y ^ 2 - equatorial_radius ^ 2) +
    sat_pos.z ^ 2
  (a, b, c)

/-- The discriminant `b² - a·c` whose square root is taken in
`_get_distances_to_intersections` (`tmp = np.sqrt(b**2 - a * c)`). -/
def _intersection_discriminant (view_vector sat_pos : Vec3)
    (ellipsoid : ℝ × ℝ) : ℝ :=
  let q := _intersection_quadratic view_vector sat_pos ellipsoid
  q.2.1 ^ 2 - q.1 * q.2.2

/-- Embeds `_get_distances_to_intersections`: the two roots
`(-b ± √(b² - a·c)) / a` of the intersection quadratic. -/
noncomputable def _get_distances_to_intersections (view_vector sat_pos : Vec3)
    (ellipsoid : ℝ × ℝ) : ℝ × ℝ :=
  let q := _intersection_quadratic view_vector sat_pos ellipsoid
  let a := q.1
  let b := q.2.1
  let c := q.2.2
  let tmp := Real.sqrt (b ^ 2 - a * c)
  ((-b + tmp) / a, (-b - tmp) / a)

/-- Embeds `_get_distance_to_intersection`: the minimum of the two
intersection distances (the intersection on the instrument-facing side). -/
noncomputable def _get_distance_to_intersection (view_vector sat_pos : Vec3)
    (ellipsoid : ℝ × ℝ) : ℝ :=
  let d := _get_distances_to_intersections view_vector sat_pos ellipsoid
  min d.1 d.2

/-- Embeds `intersect_with_earth`: `sat_pos + distance * view_vector`. -/
noncomputable def intersect_with_earth (view_vector sat_pos : Vec3)
    (ellipsoid : ℝ × ℝ) : Vec3 :=
  Vec3.add sat_pos
    (Vec3.smul (_get_distance_to_intersection view_vector sat_pos ellipsoid)
      view_vector)

/-! Section: Earth-fixed to geodetic conversion -/

/-- Real-number model of `np.arctan2 y x` (four-quadrant arctangent, range
`[-π, π]`, `arctan2 0 0 = 0`). -/
noncomputable def arctan2 (y x : ℝ) : ℝ :=
  if 0 < x then Real.arctan (y / x)
  else if x < 0 then
    (if 0 ≤ y then Real.arctan (y / x) + Real.pi
     else Real.arctan (y / x) - Real.pi)
  else
    (if 0 < y then Real.pi / 2
     else if y < 0 then -(Real.pi / 2)
     else 0)

/-- Real-number model of `np.rad2deg`: multiply by `180 / π`. -/
noncomputable def rad2deg (r : ℝ) : ℝ :=
  r * (180 / Real.pi)

/-- Embeds `transform_earth_fixed_to_geodetic_coords`:
`lon = arctan2(y, x)`, `lat = arctan2(z, (1-f)² * sqrt(x² + y²))`,
both converted from radians to degrees. -/
noncomputable def transform_earth_fixed_to_geodetic_coords (point : Vec3)
    (earth_flattening : ℝ) : ℝ × ℝ :=
  let f := earth_flattening
  let lon := arctan2 point.y point.x
  let lat := arctan2 point.z
    ((1 - f) ^ 2 * Real.sqrt (point.x ^ 2 + point.y ^ 2))
  (rad2deg lon, rad2deg lat)

/-! Section: Not-a-number–aware layer for the intersection pipeline

In the source, `np.sqrt` of a negative discriminant yields the floating-point
not-a-number value, which then propagates through `min`, the vector arithmetic
of `intersect_with_earth` and the trigonometry of
`transform_earth_fixed_to_geodetic_coords`, so that the pixel's final
longitude/latitude are not-a-number.  Real numbers have no not-a-number
element, so this layer tracks it explicitly with `Option`: `none` is the
not-a-number sentinel, produced exactly when the discriminant is negative and
propagated by `Option.map`. -/

/-- Not-a-number–aware model of `_get_distance_to_intersection`: `none` iff
the discriminant under the square root is negative. -/
noncomputable def _get_distance_to_intersection_nanAware
    (view_vector sat_pos : Vec3) (ellipsoid : ℝ × ℝ) : Option ℝ :=
  if _intersection_discriminant view_vector sat_pos ellipsoid < 0 then none
  else some (_get_distance_to_intersection view_vector sat_pos ellipsoid)

/-- Not-a-number–aware model of `intersect_with_earth`. -/
noncomputable def intersect_with_earth_nanAware (view_vector sat_pos : Vec3)
    (ellipsoid : ℝ × ℝ) : Option Vec3 :=
  Option.map (fun d => Vec3.add sat_pos (Vec3.smul d view_vector))
    (_get_distance_to_intersection_nanAware view_vector sat_pos ellipsoid)

/-- Not-a-number–aware model of the tail of `get_lon_lat`: intersect the
earth-fixed view vector with the earth, then convert the intersection point to
geodetic coordinates; the per-pixel result is `none` (the not-a-number
sentinel for both longitude and latitude) when the view ray misses the
earth. -/
noncomputable def lon_lat_from_view_vector_nanAware (view_vector sat_pos : Vec3)
    (ellipsoid : ℝ × ℝ) (earth_flattening : ℝ) : Option (ℝ × ℝ) :=
  Option.map (fun q => transform_earth_fixed_to_geodetic_coords q earth_flattening)
    (intersect_with_earth_nanAware view_vector sat_pos ellipsoid)

/-! Section: Lemmas about the enclosing-index search -/

theorem find_enclosing_cons {α : Type} [LinearOrder α] (x a b : α)
    (t : List α) :
    _find_enclosing_index x (a :: b :: t) =
      if a ≤ x ∧ x < b then some 0
      else Option.map Nat.succ (_find_enclosing_index x (b :: t)) := rfl

theorem find_enclosing_none_of_lt_head {α : Type} [LinearOrder α] (x : α) :
    ∀ (a : α) (l : List α), (a :: l).Pairwise (· < ·) → x < a →
      _find_enclosing_index x (a :: l) = none
  | _, [], _, _ => rfl
  | a, b :: t, hmono, hx => by
    have hab : a < b := (List.pairwise_cons.mp hmono).1 b (List.mem_cons_self b t)
    have htail : (b :: t).Pairwise (· < ·) := (List.pairwise_cons.mp hmono).2
    have hrec : _find_enclosing_index x (b :: t) = none :=
      find_enclosing_none_of_lt_head x b t htail (hx.trans hab)
    rw [find_enclosing_cons, if_neg (fun hc => (not_le.mpr hx) hc.1), hrec]
    rfl

theorem find_enclosing_none_of_getLast_le {α : Type} [LinearOrder α] (x : α) :
    ∀ (a : α) (l : List α), (a :: l).Pairwise (· < ·) →
      (a :: l).getLast (List.cons_ne_nil a l) ≤ x →
      _find_enclosing_index x (a :: l) = none
  | _, [], _, _ => rfl
  | a, b :: t, hmono, hx => by
    have htail : (b :: t).Pairwise (· < ·) := (List.pairwise_cons.mp hmono).2
    have hglast : (a :: b :: t).getLast (List.cons_ne_nil a (b :: t)) =
        (b :: t).getLast (List.cons_ne_nil b t) :=
      List.getLast_cons (List.cons_ne_nil b t)
    have hlast_le : (b :: t).getLast (List.cons_ne_nil b t) ≤ x := by
      rw [hglast] at hx; exact hx
    have hble : b ≤ (b :: t).getLast (List.cons_ne_nil b t) := by
      have hmem := List.getLast_mem (List.cons_ne_nil b t)
      rcases List.mem_cons.mp hmem with heq | hmemt
      · exact le_of_eq heq.symm
      · exact le_of_lt ((List.pairwise_cons.mp htail).1 _ hmemt)
    have hxb : ¬ x < b := not_lt.mpr ((hble.trans hlast_le))
    have hrec : _find_enclosing_index x (b :: t) = none :=
      find_enclosing_none_of_getLast_le x b t htail hlast_le
    rw [find_enclosing_cons, if_neg (fun hc => hxb hc.2), hrec]
    rfl

theorem find_enclosing_none_of_out_of_range {α : Type} [LinearOrder α]
    (x : α) (xs : List α) (hmono : xs.Pairwise (· < ·)) (hne : xs ≠ [])
    (hout : x < xs.head hne ∨ xs.getLast hne ≤ x) :
    _find_enclosing_index x xs = none := by
  match xs, hne with
  | a :: l, _ =>
    rcases hout with hlt | hge
    · exact find_enclosing_none_of_lt_head x a l hmono hlt
    · exact find_enclosing_none_of_getLast_le x a l hmono hge

theorem pairwise_head_le_get {α : Type} [LinearOrder α] (b : α) (t : List α)
    (hmono : (b :: t).Pairwise (· < ·)) (j : ℕ) (hj : j < (b :: t).length) :
    b ≤ (b :: t).get ⟨j, hj⟩ := by
  match j with
  | 0 => exact le_refl b
  | Nat.succ k =>
    have hmem : (b :: t).get ⟨k + 1, hj⟩ ∈ t := by
      have : (b :: t).get ⟨k + 1, hj⟩ = t.get ⟨k, Nat.lt_of_succ_lt_succ hj⟩ := rfl
      rw [this]
      exact List.get_mem t k (Nat.lt_of_succ_lt_succ hj)
    exact le_of_lt ((List.pairwise_cons.mp hmono).1 _ hmem)

theorem find_enclosing_at_sample {α : Type} [LinearOrder α] :
    ∀ (l : List α) (i : ℕ), l.Pairwise (· < ·) → (hi1 : i + 1 < l.length) →
      (hi : i < l.length) → _find_enclosing_index (l.get ⟨i, hi⟩) l = some i
  | [], i, _, hi1, _ => by simp at hi1
  | [a], i, _, hi1, _ => by simp at hi1
  | a :: b :: t, 0, hmono, hi1, hi => by
    have hab : a < b := (List.pairwise_cons.mp hmono).1 b (List.mem_cons_self b t)
    rw [find_enclosing_cons]
    exact if_pos ⟨le_refl a, hab⟩
  | a :: b :: t, Nat.succ j, hmono, hi1, hi => by
    have htail : (b :: t).Pairwise (· < ·) := (List.pairwise_cons.mp hmono).2
    have hj : j < (b :: t).length := Nat.lt_of_succ_lt_succ hi
    have hj1 : j + 1 < (b :: t).length := Nat.lt_of_succ_lt_succ hi1
    have hget : (a :: b :: t).get ⟨j + 1, hi⟩ = (b :: t).get ⟨j, hj⟩ := rfl
    have hble : b ≤ (b :: t).get ⟨j, hj⟩ := pairwise_head_le_get b t htail j hj
    have hxb : ¬ (b :: t).get ⟨j, hj⟩ < b := not_lt.mpr hble
    have hrec : _find_enclosing_index ((b :: t).get ⟨j, hj⟩) (b :: t) = some j :=
      find_enclosing_at_sample (b :: t) j htail hj1 hj
    rw [hget, find_enclosing_cons, if_neg (fun hcon => hxb hcon.2), hrec]
    rfl

/-! Section: Lemmas about `fmod` and `_wrap_2pi` -/

theorem fmod_eq_mul_fract (a m : ℝ) (hm : m ≠ 0) :
    fmod a m = m * Int.fract (a / m) := by
  have hcancel : m * (a / m) = a := by field_simp
  unfold fmod Int.fract
  rw [mul_sub, hcancel]

theorem fmod_nonneg_of_pos (a m : ℝ) (hm : 0 < m) : 0 ≤ fmod a m := by
  rw [fmod_eq_mul_fract a m hm.ne']
  exact mul_nonneg hm.le (Int.fract_nonneg _)

theorem fmod_lt_of_pos (a m : ℝ) (hm : 0 < m) : fmod a m < m := by
  rw [fmod_eq_mul_fract a m hm.ne']
  calc m * Int.fract (a / m) < m * 1 :=
        mul_lt_mul_of_pos_left (Int.fract_lt_one _) hm
    _ = m := mul_one m

theorem wrap_2pi_mem (v : ℝ) : -Real.pi ≤ _wrap_2pi v ∧ _wrap_2pi v ≤ Real.pi := by
  have h2 : (0:ℝ) < 2 * Real.pi := by positivity
  have h1 := fmod_nonneg_of_pos (v + Real.pi) _ h2
  have h3 := fmod_lt_of_pos (v + Real.pi) _ h2
  unfold _wrap_2pi
  constructor <;> linarith

theorem wrap_2pi_zero : _wrap_2pi 0 = 0 := by
  unfold _wrap_2pi fmod
  have hd : ((0:ℝ) + Real.pi) / (2 * Real.pi) = 1 / 2 := by
    rw [zero_add, div_eq_iff (by positivity : (2:ℝ) * Real.pi ≠ 0)]
    ring
  rw [hd]
  have hfl : ⌊(1 / 2 : ℝ)⌋ = 0 := by
    rw [Int.floor_eq_zero_iff]
    constructor <;> norm_num
  rw [hfl]
  ring

/-! Section: Claim theorems about the interpolators -/

/-- Claim C3: for a strictly increasing sample-time sequence with a parallel
value sequence, a query strictly before the first sample time or at/after the
last sample time makes all three interpolators return the not-a-number
sentinel (`none`; for `interpolate_nearest` the sentinel is a sample-shaped
array of not-a-number, likewise modelled by `none`) instead of raising; in
particular a query exactly equal to the last sample time is out of range. -/
theorem claim_C3_out_of_range_returns_nan {β : Type} (x : ℝ)
    (x_sample y_sample : List ℝ) (z_sample : List β)
    (hmono : x_sample.Pairwise (· < ·))
    (hlen : y_sample.length = x_sample.length)
    (hzlen : z_sample.length = x_sample.length) (hne : x_sample ≠ [])
    (hout : x < x_sample.head hne ∨ x_sample.getLast hne ≤ x) :
    interpolate_continuous x x_sample y_sample = none ∧
    interpolate_angles x x_sample y_sample = none ∧
    interpolate_nearest x x_sample z_sample = none := by
  have hfind := find_enclosing_none_of_out_of_range x x_sample hmono hne hout
  refine ⟨?_, ?_, ?_⟩
  · simp [interpolate_continuous, _interpolate, hfind]
  · simp [interpolate_angles, interpolate_continuous, _interpolate, hfind]
  · simp [interpolate_nearest, _interpolate_nearest, hfind]

/-- Claim C6: querying `interpolate_continuous` exactly at a sample time
`x_sample[i]` with `i` strictly below the last index returns exactly
`y_sample[i]` (the interpolation distance term vanishes). -/
theorem claim_C6_exact_resampling {α : Type} [LinearOrderedField α]
    (x_sample y_sample : List α) (i : ℕ)
    (hmono : x_sample.Pairwise (· < ·))
    (hlen : y_sample.length = x_sample.length)
    (hi1 : i + 1 < x_sample.length) (hi : i < x_sample.length)
    (hyi : i < y_sample.length) :
    interpolate_continuous (x_sample.get ⟨i, hi⟩) x_sample y_sample =
      some (y_sample.get ⟨i, hyi⟩) := by
  have hfind := find_enclosing_at_sample x_sample i hmono hi1 hi
  have hyi1 : i + 1 < y_sample.length := hlen ▸ hi1
  simp only [List.get_eq_getElem] at hfind ⊢
  simp [interpolate_continuous, _interpolate, hfind,
    List.getElem?_eq_getElem hyi, List.getElem?_eq_getElem hi,
    List.getElem?_eq_getElem hi1, List.getElem?_eq_getElem hyi1]

/-- Claim C8: `interpolate_angles` performs the identical enclosing-index
search and linear interpolation as `interpolate_continuous`, followed only by
wrapping the result into `[-π, π]` via `((v + π) mod 2π) - π` with the
always-nonnegative remainder (the not-a-number sentinel passing through the
wrap unchanged). -/
theorem claim_C8_angles_eq_wrap_of_continuous (x : ℝ)
    (x_sample y_sample : List ℝ) :
    interpolate_angles x x_sample y_sample =
      Option.map (fun v => fmod (v + Real.pi) (2 * Real.pi) - Real.pi)
        (interpolate_continuous x x_sample y_sample) := rfl

/-- Claim C4: for every valid (in-range) query, the value returned by
`interpolate_angles` lies in `[-π, π]`, the wrap being
`((v + π) mod 2π) - π` with the always-nonnegative remainder. -/
theorem claim_C4_interpolate_angles_range (x : ℝ) (x_sample y_sample : List ℝ)
    (v : ℝ) (h : interpolate_angles x x_sample y_sample = some v) :
    -Real.pi ≤ v ∧ v ≤ Real.pi := by
  unfold interpolate_angles at h
  rcases Option.map_eq_some'.mp h with ⟨w, hw, hv⟩
  rw [← hv]
  exact wrap_2pi_mem w

/-- Witness for claim C3 at the concrete query `x = 2` past the last sample
time of `x_sample = [0, 1]`. -/
theorem claim_C3_witness :
    interpolate_continuous (2:ℝ) [0, 1] [5, 6] = none ∧
    interpolate_angles (2:ℝ) [0, 1] [5, 6] = none ∧
    interpolate_nearest (2:ℝ) [0, 1] [(7:ℕ), 8] = none :=
  claim_C3_out_of_range_returns_nan 2 [0, 1] [5, 6] [7, 8]
    (by norm_num [List.pairwise_cons]) (by norm_num) (by norm_num) (by simp)
    (Or.inr (show (1:ℝ) ≤ 2 by norm_num))

/-- Witness for claim C6 with `x_sample = [0, 1, 2]`, `y_sample = [5, 6, 7]`
and `i = 1` over `ℚ`. -/
theorem claim_C6_witness :
    interpolate_continuous (1 : ℚ) [0, 1, 2] [5, 6, 7] = some 6 := by
  have h : interpolate_continuous (1 : ℚ) [0, 1, 2] [5, 6, 7] = some 6 :=
    claim_C6_exact_resampling [0, 1, 2] [5, 6, 7] 1
      (by decide) (by decide) (by decide) (by decide) (by decide)
  exact h

/-- Witness for claim C4 at the concrete in-range query `x = 0` on
`x_sample = [0, 1]`, `y_sample = [0, 0]`. -/
theorem claim_C4_witness :
    interpolate_angles 0 [0, 1] [0, 0] = some 0 ∧
    (-Real.pi ≤ (0:ℝ) ∧ (0:ℝ) ≤ Real.pi) := by
  have hfind : _find_enclosing_index (0:ℝ) [0, 1] = some 0 := by
    norm_num [_find_enclosing_index]
  have heval : interpolate_angles (0:ℝ) [0, 1] [0, 0] = some 0 := by
    simp [interpolate_angles, interpolate_continuous, _interpolate, hfind,
      wrap_2pi_zero]
  exact ⟨heval, claim_C4_interpolate_angles_range 0 [0, 1] [0, 0] 0 heval⟩

/-! Section: Claim theorems about the observation time -/

/-- Claim C2: `get_observation_time((line, pixel), scan_params)` equals
`start_time_of_scan + (floor(line/num_sensors) + sampling_angle·(pixel+1)/(2π))
/ (1440·spinning_rate)`; in particular at point `(0, 0)` it equals the scan
start time plus the analytically computed offset of that formula. -/
theorem claim_C2_observation_time (line pixel : ℝ) (sp : ScanningParameters)
    (hspin : 0 < sp.spinning_rate) (hns : 0 < sp.num_sensors) :
    get_observation_time (line, pixel) sp =
      sp.start_time_of_scan +
        ((⌊line / sp.num_sensors⌋ : ℝ) +
            sp.sampling_angle * (pixel + 1) / (2 * Real.pi)) /
          (1440 * sp.spinning_rate) ∧
    get_observation_time (0, 0) sp =
      sp.start_time_of_scan +
        sp.sampling_angle / (2 * Real.pi) / (1440 * sp.spinning_rate) := by
  constructor
  · simp only [get_observation_time, _get_relative_observation_time]
    have h1 : line + 1 - 1 = line := by ring
    rw [h1]
  · simp only [get_observation_time, _get_relative_observation_time]
    have h1 : (0:ℝ) + 1 - 1 = 0 := by ring
    rw [h1, zero_div, Int.floor_zero]
    push_cast
    rw [zero_add]
    congr 1
    ring

/-- Witness for claim C2 with
`ScanningParameters(start=0, spinning_rate=100, num_sensors=1,
sampling_angle=1)` at point `(0, 0)`. -/
theorem claim_C2_witness :
    get_observation_time (0, 0) (ScanningParameters.mk 0 100 1 1) =
      0 + 1 / (2 * Real.pi) / (1440 * 100) :=
  (claim_C2_observation_time 0 0 (ScanningParameters.mk 0 100 1 1)
    (by norm_num) (by norm_num)).2

/-! Section: Claim theorems about the ellipsoid intersection -/

/-- Claim C1: whenever the intersection quadratic has nonnegative
discriminant, the distance chosen by the intersection routine is the minimum
of the two roots `(-b ± √(b² - a·c)) / a`; in particular, for
`view_vector = (0,0,-1)`, `sat_pos = (0,0,H)` with `H > R`, `flattening = 0`
and `equatorial_radius = R`, the chosen distance is `H - R` (not `H + R`) and
the intersection point `sat_pos + distance · view_vector` is `(0, 0, R)`. -/
theorem claim_C1_intersection_near_side :
    (∀ (u p : Vec3) (req f : ℝ), 0 < req → 0 ≤ f → f < 1 →
      0 ≤ _intersection_discriminant u p (req, f) →
      _get_distance_to_intersection u p (req, f) =
        min
          ((-((1 - f) ^ 2 * (p.x * u.x + p.y * u.y) + p.z * u.z) +
              Real.sqrt
                (((1 - f) ^ 2 * (p.x * u.x + p.y * u.y) + p.z * u.z) ^ 2 -
                  ((1 - f) ^ 2 * (u.x ^ 2 + u.y ^ 2) + u.z ^ 2) *
                    ((1 - f) ^ 2 * (p.x ^ 2 + p.y ^ 2 - req ^ 2) + p.z ^ 2))) /
            ((1 - f) ^ 2 * (u.x ^ 2 + u.y ^ 2) + u.z ^ 2))
          ((-((1 - f) ^ 2 * (p.x * u.x + p.y * u.y) + p.z * u.z) -
              Real.sqrt
                (((1 - f) ^ 2 * (p.x * u.x + p.y * u.y) + p.z * u.z) ^ 2 -
                  ((1 - f) ^ 2 * (u.x ^ 2 + u.y ^ 2) + u.z ^ 2) *
                    ((1 - f) ^ 2 * (p.x ^ 2 + p.y ^ 2 - req ^ 2) + p.z ^ 2))) /
            ((1 - f) ^ 2 * (u.x ^ 2 + u.y ^ 2) + u.z ^ 2))) ∧
    (∀ H R : ℝ, 0 < R → R < H →
      _get_distance_to_intersection ⟨0, 0, -1⟩ ⟨0, 0, H⟩ (R, 0) = H - R ∧
      intersect_with_earth ⟨0, 0, -1⟩ ⟨0, 0, H⟩ (R, 0) = ⟨0, 0, R⟩) := by
  constructor
  · intro u p req f _ _ _ _
    simp only [_get_distance_to_intersection, _get_distances_to_intersections,
      _intersection_quadratic]
  · intro H R hR hH
    have hq : _intersection_quadratic ⟨0, 0, -1⟩ ⟨0, 0, H⟩ (R, 0) =
        (1, -H, H ^ 2 - R ^ 2) := by
      simp only [_intersection_quadratic, Prod.mk.injEq]
      norm_num
      ring
    have hs : Real.sqrt ((-H) ^ 2 - 1 * (H ^ 2 - R ^ 2)) = R := by
      have h1 : (-H) ^ 2 - 1 * (H ^ 2 - R ^ 2) = R ^ 2 := by ring
      rw [h1, Real.sqrt_sq hR.le]
    have hd : _get_distances_to_intersections ⟨0, 0, -1⟩ ⟨0, 0, H⟩ (R, 0) =
        (H + R, H - R) := by
      simp only [_get_distances_to_intersections, hq]
      rw [Prod.mk.injEq]
      constructor
      · rw [hs]; ring
      · rw [hs]; ring
    have hdist : _get_distance_to_intersection ⟨0, 0, -1⟩ ⟨0, 0, H⟩ (R, 0) =
        H - R := by
      simp only [_get_distance_to_intersection, hd]
      exact min_eq_right (by linarith)
    refine ⟨hdist, ?_⟩
    simp only [intersect_with_earth, hdist, Vec3.add, Vec3.smul, Vec3.mk.injEq]
    refine ⟨by ring, by ring, by ring⟩

/-- Witness for claim C1 at `H = 2`, `R = 1`. -/
theorem claim_C1_witness :
    _get_distance_to_intersection ⟨0, 0, -1⟩ ⟨0, 0, 2⟩ (1, 0) = 2 - 1 ∧
    intersect_with_earth ⟨0, 0, -1⟩ ⟨0, 0, 2⟩ (1, 0) = ⟨0, 0, 1⟩ :=
  claim_C1_intersection_near_side.2 2 1 (by norm_num) (by norm_num)

/-- Claim C5: when the discriminant of the intersection quadratic is
negative (the view ray misses the earth), the per-pixel result is the
not-a-number sentinel (`none` in the not-a-number–aware model), both for the
intersection point and for the derived longitude/latitude pair; being a total
function, the pipeline produces no exception and other pixels are
unaffected. -/
theorem claim_C5_negative_discriminant_nan (u p : Vec3) (e : ℝ × ℝ)
    (hdisc : _intersection_discriminant u p e < 0) :
    intersect_with_earth_nanAware u p e = none ∧
    lon_lat_from_view_vector_nanAware u p e e.2 = none := by
  have h : _get_distance_to_intersection_nanAware u p e = none := by
    simp [_get_distance_to_intersection_nanAware, hdisc]
  constructor
  · simp [intersect_with_earth_nanAware, h]
  · simp [lon_lat_from_view_vector_nanAware, intersect_with_earth_nanAware, h]

/-- Witness for claim C5: a horizontal ray from above the pole,
`view_vector = (1,0,0)`, `sat_pos = (0,0,2)`, spherical earth of radius 1,
misses the earth (`discriminant = -3`). -/
theorem claim_C5_witness :
    _intersection_discriminant ⟨1, 0, 0⟩ ⟨0, 0, 2⟩ (1, 0) < 0 ∧
    intersect_with_earth_nanAware ⟨1, 0, 0⟩ ⟨0, 0, 2⟩ (1, 0) = none ∧
    lon_lat_from_view_vector_nanAware ⟨1, 0, 0⟩ ⟨0, 0, 2⟩ (1, 0) 0 = none := by
  have hdisc : _intersection_discriminant ⟨1, 0, 0⟩ ⟨0, 0, 2⟩ (1, 0) < 0 := by
    simp only [_intersection_discriminant, _intersection_quadratic]
    norm_num
  have h := claim_C5_negative_discriminant_nan ⟨1, 0, 0⟩ ⟨0, 0, 2⟩ (1, 0) hdisc
  exact ⟨hdisc, h.1, h.2⟩

/-! Section: Claim theorems about the geodetic conversion -/

/-- Claim C7: the geodetic conversion returns `lon = atan2(y, x)` and
`lat = atan2(z, (1-f)²·√(x²+y²))`, both converted from radians to degrees. -/
theorem claim_C7_geodetic_formula (point : Vec3) (f : ℝ) :
    transform_earth_fixed_to_geodetic_coords point f =
      (rad2deg (arctan2 point.y point.x),
        rad2deg (arctan2 point.z
          ((1 - f) ^ 2 * Real.sqrt (point.x ^ 2 + point.y ^ 2)))) := rfl

/-! Section: Range lemmas for `arctan2` and `rad2deg` -/

theorem neg_pi_lt_arctan2 (y x : ℝ) : -Real.pi < arctan2 y x := by
  unfold arctan2
  have hpi := Real.pi_pos
  have hb1 := Real.neg_pi_div_two_lt_arctan (y / x)
  have hb2 := Real.arctan_lt_pi_div_two (y / x)
  split_ifs with h1 h2 h3 h4 h5
  · linarith
  · linarith
  · have hx : x < 0 := h2
    have hy : y < 0 := not_le.mp h3
    have hpos : 0 < y / x := div_pos_of_neg_of_neg hy hx
    have h0 : (0:ℝ) < Real.arctan (y / x) := by
      have hmono := Real.arctan_strictMono hpos
      rwa [Real.arctan_zero] at hmono
    linarith
  · linarith
  · linarith
  · linarith

theorem arctan2_le_pi (y x : ℝ) : arctan2 y x ≤ Real.pi := by
  unfold arctan2
  have hpi := Real.pi_pos
  have hb1 := Real.neg_pi_div_two_lt_arctan (y / x)
  have hb2 := Real.arctan_lt_pi_div_two (y / x)
  split_ifs with h1 h2 h3 h4 h5
  · linarith
  · have hx : x < 0 := h2
    have hy : 0 ≤ y := h3
    have hnp : y / x ≤ 0 := div_nonpos_iff.mpr (Or.inl ⟨hy, hx.le⟩)
    have h0 : Real.arctan (y / x) ≤ 0 := by
      have hmono := Real.arctan_strictMono.monotone hnp
      rwa [Real.arctan_zero] at hmono
    linarith
  · linarith
  · linarith
  · linarith
  · linarith

theorem arctan2_mem_of_nonneg_snd (y x : ℝ) (hx : 0 ≤ x) :
    -(Real.pi / 2) ≤ arctan2 y x ∧ arctan2 y x ≤ Real.pi / 2 := by
  unfold arctan2
  have hpi := Real.pi_pos
  have hb1 := Real.neg_pi_div_two_lt_arctan (y / x)
  have hb2 := Real.arctan_lt_pi_div_two (y / x)
  split_ifs with h1 h2 h3 h4 h5
  · constructor <;> linarith
  · exact absurd h2 (not_lt.mpr hx)
  · exact absurd h2 (not_lt.mpr hx)
  · constructor <;> linarith
  · constructor <;> linarith
  · constructor <;> linarith

theorem rad2deg_monotone : Monotone rad2deg := by
  intro a b h
  unfold rad2deg
  exact mul_le_mul_of_nonneg_right h (by positivity)

theorem rad2deg_strictMono : StrictMono rad2deg := by
  intro a b h
  unfold rad2deg
  exact mul_lt_mul_of_pos_right h (by positivity)

theorem rad2deg_pi : rad2deg Real.pi = 180 := by
  unfold rad2deg
  field_simp

theorem rad2deg_pi_div_two : rad2deg (Real.pi / 2) = 90 := by
  unfold rad2deg
  field_simp
  ring

theorem rad2deg_neg (r : ℝ) : rad2deg (-r) = -(rad2deg r) := by
  unfold rad2deg
  ring

/-- Claim C9: for every earth-fixed input point and flattening
`0 ≤ f < 1`, the latitude returned by the geodetic conversion lies in
`[-90, 90]` degrees (the second `atan2` argument `(1-f)²·√(x²+y²)` being
nonnegative) and the longitude lies in `(-180, 180]` degrees. -/
theorem claim_C9_geodetic_ranges (point : Vec3) (f : ℝ) (hf0 : 0 ≤ f)
    (hf1 : f < 1) :
    (-90 ≤ (transform_earth_fixed_to_geodetic_coords point f).2 ∧
      (transform_earth_fixed_to_geodetic_coords point f).2 ≤ 90) ∧
    (-180 < (transform_earth_fixed_to_geodetic_coords point f).1 ∧
      (transform_earth_fixed_to_geodetic_coords point f).1 ≤ 180) := by
  have harg : 0 ≤ (1 - f) ^ 2 * Real.sqrt (point.x ^ 2 + point.y ^ 2) :=
    mul_nonneg (sq_nonneg _) (Real.sqrt_nonneg _)
  have hlat := arctan2_mem_of_nonneg_snd point.z _ harg
  have hlon1 := neg_pi_lt_arctan2 point.y point.x
  have hlon2 := arctan2_le_pi point.y point.x
  simp only [transform_earth_fixed_to_geodetic_coords]
  refine ⟨⟨?_, ?_⟩, ⟨?_, ?_⟩⟩
  · have h := rad2deg_monotone hlat.1
    rw [rad2deg_neg, rad2deg_pi_div_two] at h
    exact h
  · have h := rad2deg_monotone hlat.2
    rwa [rad2deg_pi_div_two] at h
  · have h := rad2deg_strictMono hlon1
    rw [rad2deg_neg, rad2deg_pi] at h
    exact h
  · have h := rad2deg_monotone hlon2
    rwa [rad2deg_pi] at h

/-- Witness for claim C9 at `point = (1, 0, 0)`, `f = 0`. -/
theorem claim_C9_witness :
    (-90 ≤ (transform_earth_fixed_to_geodetic_coords ⟨1, 0, 0⟩ 0).2 ∧
      (transform_earth_fixed_to_geodetic_coords ⟨1, 0, 0⟩ 0).2 ≤ 90) ∧
    (-180 < (transform_earth_fixed_to_geodetic_coords ⟨1, 0, 0⟩ 0).1 ∧
      (transform_earth_fixed_to_geodetic_coords ⟨1, 0, 0⟩ 0).1 ≤ 180) :=
  claim_C9_geodetic_ranges ⟨1, 0, 0⟩ 0 (by norm_num) (by norm_num)

end Gms5VissrNav
